import Mathlib

/-!
Shallow embedding, in Lean 4, of the core transcription pipeline of the
repository (audio segmentation, rate/concurrency-limited transcription with
retries, and transcript merging), together with theorems settling the
frozen claims about it.

Sources embedded:
- `src/utils/apiUtils.ts` : `GroqAPIClient.transcribeAudio`,
  `GroqAPIClient.transcribeMultipleSegments`,
  `GroqAPIClient.mergeTranscriptionResults`, `Semaphore`.
- `src/utils/audioUtils.ts` : `AudioProcessor.splitAudioBuffer`.
- the `AudioProcessor` React component (`startTranscription`,
  `stopTranscription`).

JavaScript numbers are modelled as `ℚ` (all arithmetic appearing in the
embedded code paths is exact decimal/integer arithmetic, far below any
double-precision rounding), indices and counters as `Nat`, and the
semaphore permit counter as `ℤ`.
-/

/-- Data model. Embedding of the `TranscriptionWord` interface of
`apiUtils.ts` (fields `word`, `start`, `end`). Since `end` is a reserved
word in Lean, the field is written `«end»`. -/
structure TranscriptionWord where
  word : String
  start : ℚ
  «end» : ℚ
deriving DecidableEq, Repr

/-- Embedding of the `TranscriptionSegment` interface of `apiUtils.ts`.
The model-diagnostic fields (`tokens`, `temperature`, `avg_logprob`,
`compression_ratio`, `no_speech_prob`) are pure pass-through payload: the
pipeline never reads or writes them individually (the merge spread copies
them verbatim), so they are omitted from the embedding. -/
structure TranscriptionSegment where
  id : Nat
  seek : ℚ
  start : ℚ
  «end» : ℚ
  text : String
deriving DecidableEq, Repr

/-- Embedding of the `TranscriptionResult` interface of `apiUtils.ts`. -/
structure TranscriptionResult where
  text : String
  segments : List TranscriptionSegment
  words : List TranscriptionWord
  language : String
  duration : ℚ
deriving DecidableEq, Repr

/-- Embedding of the anonymous result-with-metadata record
`TranscriptionResult & { index; startTime; endTime }` produced by
`transcribeMultipleSegments`. -/
structure ResultWithMeta extends TranscriptionResult where
  index : Nat
  startTime : ℚ
  endTime : ℚ
deriving DecidableEq, Repr

/-- Per-fragment segment merging step of `mergeTranscriptionResults`
(`apiUtils.ts` lines 225-232): each local sub-segment is appended to the
accumulated list with `id` renumbered to the current accumulated length and
`start`/`end` shifted by the owning fragment's `startTime` offset. -/
def offsetSegments (off : ℚ) (base : List TranscriptionSegment)
    (segs : List TranscriptionSegment) : List TranscriptionSegment :=
  segs.foldl
    (fun acc sg =>
      acc ++ [{ sg with id := acc.length, start := sg.start + off, «end» := sg.«end» + off }])
    base

/-- Per-fragment word merging step of `mergeTranscriptionResults`
(`apiUtils.ts` lines 235-241): words are appended with `start`/`end`
shifted by the owning fragment's `startTime` offset. -/
def offsetWords (off : ℚ) (ws : List TranscriptionWord) : List TranscriptionWord :=
  ws.map (fun w => { w with start := w.start + off, «end» := w.«end» + off })

/-- Per-fragment body of the `forEach` loop of `mergeTranscriptionResults`
(`apiUtils.ts` lines 221-244): each fragment's sub-segments and words are
appended in input order with its `startTime` as time offset, and the
duration accumulator becomes the maximum of itself and the fragment's
`endTime`. -/
def mergeStep (acc : List TranscriptionSegment × List TranscriptionWord × ℚ)
    (r : ResultWithMeta) : List TranscriptionSegment × List TranscriptionWord × ℚ :=
  (offsetSegments r.startTime acc.1 r.segments,
   acc.2.1 ++ offsetWords r.startTime r.words,
   max acc.2.2 r.endTime)

/-- Embedding of `GroqAPIClient.mergeTranscriptionResults` (`apiUtils.ts`
lines 203-253). Empty input yields the empty transcript with language
marker "ja" and zero duration. Otherwise: texts are trimmed and joined
with single spaces; the `forEach` over the fragments is `foldl mergeStep`
seeded with empty lists and duration 0; `language` is taken from the
first fragment. The source does not sort its input. -/
def mergeTranscriptionResults (results : List ResultWithMeta) : TranscriptionResult :=
  match results with
  | [] => { text := "", segments := [], words := [], language := "ja", duration := 0 }
  | r0 :: _ =>
    let mergedText := String.intercalate " " (results.map (fun r => r.text.trim))
    let folded := results.foldl mergeStep ([], [], 0)
    { text := mergedText
      segments := folded.1
      words := folded.2.1
      language := r0.language
      duration := folded.2.2 }

/-- Insertion of a result into a list sorted ascending by `index`.
Together with `sortResultsByIndex` this embeds the JavaScript call
`results.sort((a, b) => a.index - b.index)` (`apiUtils.ts` line 198): a
comparator-based sort whose output is ordered ascending by `index`. It is
also the explicit sorted-by-index comparison order that the specification
words of the merge-ordering claim refer to. -/
def insertByIndex (r : ResultWithMeta) : List ResultWithMeta → List ResultWithMeta
  | [] => [r]
  | x :: xs => if r.index ≤ x.index then r :: x :: xs else x :: insertByIndex r xs

/-- Sorting by ascending segment `index` (see `insertByIndex`). -/
def sortResultsByIndex : List ResultWithMeta → List ResultWithMeta
  | [] => []
  | x :: xs => insertByIndex x (sortResultsByIndex xs)

/-- Outcome of one outbound `fetch` to `/api/transcribe`, as observed by
`transcribeAudio` (`apiUtils.ts` lines 60-95). `ok` is a 2xx response with
a parsed body. `httpErr status authPhrase` is a non-2xx response;
`authPhrase` records whether the error message text taken from the
response body contains the API-key-invalid phrase that the retry guards
test with `includes`. `netErr authPhrase` is a rejected fetch or a body
that failed to parse, again with that flag on its message. -/
inductive FetchOutcome where
  | ok (r : TranscriptionResult)
  | httpErr (status : Nat) (authPhrase : Bool)
  | netErr (authPhrase : Bool)
deriving DecidableEq

/-- Error value thrown out of `transcribeAudio`: the only property of the
message the surrounding code ever inspects is whether it contains the
API-key-invalid phrase. -/
structure ApiError where
  authPhrase : Bool
deriving DecidableEq, Repr

/-- Embedding of `GroqAPIClient.transcribeAudio` (`apiUtils.ts` lines
40-108). The oracle gives the outcome of the n-th outbound call of the
enclosing per-segment chain; the second result component is the next call
index, so the number of calls a run makes is the difference of call
indices. The source recurses with `retryCount + 1` guarded by
`retryCount < maxRetries` with `maxRetries = 3`; the structural argument
`budget` is the remaining retry allowance `maxRetries - retryCount`, so
`budget = 0` exactly when `retryCount < 3` fails. Branches, in source
order: a 2xx response returns the parsed result; a 429 with retries left
recurses; a 401 throws the API-key-invalid error, which its own `catch`
re-throws without retrying because the message contains the phrase; any
other failure (non-2xx throw or network error) is retried by the `catch`
when retries are left and the message lacks the phrase, else re-thrown. -/
def transcribeAudioB (oracle : Nat → FetchOutcome) :
    Nat → Nat → Except ApiError TranscriptionResult × Nat
  | budget, k =>
    match oracle k, budget with
    | .ok r, _ => (.ok r, k + 1)
    | .httpErr status phrase, b + 1 =>
      if status = 429 then transcribeAudioB oracle b (k + 1)
      else if status = 401 then (.error ⟨true⟩, k + 1)
      else if phrase then (.error ⟨phrase⟩, k + 1)
      else transcribeAudioB oracle b (k + 1)
    | .httpErr status phrase, 0 =>
      if status = 401 then (.error ⟨true⟩, k + 1) else (.error ⟨phrase⟩, k + 1)
    | .netErr phrase, b + 1 =>
      if phrase then (.error ⟨phrase⟩, k + 1) else transcribeAudioB oracle b (k + 1)
    | .netErr phrase, 0 => (.error ⟨phrase⟩, k + 1)

/-- Entry point of the single-call retry wrapper: the source starts a
chain at a given `retryCount` (0 for the first wave, the stored count for
the retry wave), which leaves `3 - retryCount` retries of allowance. -/
def transcribeAudio (oracle : Nat → FetchOutcome) (retryCount k : Nat) :
    Except ApiError TranscriptionResult × Nat :=
  transcribeAudioB oracle (3 - retryCount) k

/-- Metadata of one audio segment as handed to
`transcribeMultipleSegments` (`blob`, whose bytes the client never
inspects, is abstracted away; the per-call outcomes of transcribing it are
supplied by an oracle instead). -/
structure SegInput where
  index : Nat
  startTime : ℚ
  endTime : ℚ
deriving DecidableEq, Repr

/-- Embedding of one invocation of `processSegment` inside
`transcribeMultipleSegments` (`apiUtils.ts` lines 126-172): run
`transcribeAudio` from the given `retryCount`; on success produce the
result extended with the segment metadata; on failure, the segment is
pushed onto `failedSegments` with `retryCount + 1` exactly when
`retryCount < 2` and the error message lacks the API-key-invalid phrase.
Returns (optional result, optional requeue retry count, next call index). -/
def processSegmentM (oracle : Nat → FetchOutcome) (seg : SegInput) (retryCount k : Nat) :
    Option ResultWithMeta × Option Nat × Nat :=
  match transcribeAudio oracle retryCount k with
  | (.ok r, k') =>
    (some { toTranscriptionResult := r, index := seg.index,
            startTime := seg.startTime, endTime := seg.endTime }, none, k')
  | (.error e, k') =>
    (none, if retryCount < 2 ∧ e.authPhrase = false then some (retryCount + 1) else none, k')

/-- Statistics of the full two-wave treatment of a single segment by
`transcribeMultipleSegments`: total number of outbound calls, whether a
result was recorded, the `(retryCount, authPhrase)` pairs pushed onto the
`errors` list, and whether any recorded error passes the final-failure
filter of line 189 (`retryCount >= 2` or message contains the
API-key-invalid phrase). -/
structure SegmentRunStats where
  totalCalls : Nat
  succeeded : Bool
  recorded : List (Nat × Bool)
  finalFlagged : Bool
deriving DecidableEq, Repr

/-- Final-failure filter of `apiUtils.ts` line 189 applied to the recorded
errors of one segment. -/
def finalErrorFlag (recorded : List (Nat × Bool)) : Bool :=
  recorded.any (fun e => decide (2 ≤ e.1) || e.2)

/-- Two-wave run of a single segment through
`transcribeMultipleSegments` (`apiUtils.ts` lines 174-186): the first wave
calls `processSegment` with `retryCount = 0`; if that failed and was
requeued, the single retry wave calls `processSegment` again with the
stored retry count, continuing the outbound-call numbering. A failure of
the retry wave pushes onto `failedSegments` again, but the source has no
third wave, so that entry is never resubmitted. -/
def segmentRun (oracle : Nat → FetchOutcome) (seg : SegInput) : SegmentRunStats :=
  match transcribeAudio oracle 0 0 with
  | (.ok _, k1) => ⟨k1, true, [], false⟩
  | (.error e1, k1) =>
    let rec1 := [(0, e1.authPhrase)]
    if 0 < 2 ∧ e1.authPhrase = false then
      match transcribeAudio oracle 1 k1 with
      | (.ok _, k2) => ⟨k2, true, rec1, finalErrorFlag rec1⟩
      | (.error e2, k2) =>
        let rec2 := rec1 ++ [(1, e2.authPhrase)]
        ⟨k2, false, rec2, finalErrorFlag rec2⟩
    else ⟨k1, false, rec1, finalErrorFlag rec1⟩

/-- Embedding of `GroqAPIClient.transcribeMultipleSegments` (`apiUtils.ts`
lines 110-201). `oracle p` is the per-call outcome oracle of the segment
at position `p` of the input list. The source dispatches the first wave
concurrently and pushes each settlement onto `results` in completion
order, which is unspecified; here the waves are folded sequentially in
list order, and theorems quantify over all input orders, so every
completion order is covered by some instantiation. The first wave runs
every segment from `retryCount = 0`, collecting successes and the
requeued failures; the second wave reruns the requeued failures from
their stored retry counts; finally `results.sort((a, b) => a.index -
b.index)` sorts the successes ascending by segment index. -/
def transcribeMultipleSegmentsM (segments : List SegInput)
    (oracle : Nat → Nat → FetchOutcome) : List ResultWithMeta :=
  let step1 := fun (acc : List ResultWithMeta × List (Nat × SegInput × Nat × Nat))
      (pi : Nat × SegInput) =>
    match processSegmentM (oracle pi.1) pi.2 0 0 with
    | (some r, _, _) => (acc.1 ++ [r], acc.2)
    | (none, some rc, k') => (acc.1, acc.2 ++ [(pi.1, pi.2, rc, k')])
    | (none, none, _) => acc
  let wave1 := segments.enum.foldl step1 ([], [])
  let step2 := fun (results : List ResultWithMeta) (f : Nat × SegInput × Nat × Nat) =>
    match processSegmentM (oracle f.1) f.2.1 f.2.2.1 f.2.2.2 with
    | (some r, _, _) => results ++ [r]
    | (none, _, _) => results
  sortResultsByIndex (wave1.2.foldl step2 wave1.1)

/-- Output record of `AudioProcessor.splitAudioBuffer` (`audioUtils.ts`):
the `AudioSegment` interface minus the encoded `blob` payload, whose bytes
none of the segmentation-arithmetic claims concern. -/
structure AudioSegmentM where
  startTime : ℚ
  endTime : ℚ
  duration : ℚ
  index : Nat
deriving DecidableEq, Repr

/-- Embedding of the `AudioSplitOptions` interface of `audioUtils.ts`. -/
structure AudioSplitOptions where
  segmentDuration : ℚ
  overlap : ℚ
deriving DecidableEq, Repr

/-- Loop body of `splitAudioBuffer` (`audioUtils.ts` lines 363-391),
instrumented with fuel. The source loops `while (currentPosition <
audioBuffer.length)` with no other exit except the `actualDuration < 1`
break, and advances by `stepSamples`, which is an arbitrary integer (it is
negative or zero when `overlap >= segmentDuration`); a run that does not
terminate within the given fuel returns `none`, so divergence of the
source loop is `none` for every fuel. Per iteration: `startSample` is the
current position, `endSample` is `min (currentPosition + segmentSamples)
length`, and the segment is emitted unless its actual duration is below 1
second, which instead breaks out of the loop. -/
def splitGo (L : ℕ) (sr : ℕ) (segS step : ℤ) :
    Nat → ℤ → Nat → List AudioSegmentM → Option (List AudioSegmentM)
  | fuel, pos, idx, acc =>
    if pos < (L : ℤ) then
      match fuel with
      | 0 => none
      | fuel + 1 =>
        let endS : ℤ := min (pos + segS) (L : ℤ)
        let dur : ℚ := ((endS - pos : ℤ) : ℚ) / (sr : ℚ)
        if dur < 1 then some acc
        else
          splitGo L sr segS step fuel (pos + step) (idx + 1)
            (acc ++ [{ startTime := ((pos : ℚ)) / (sr : ℚ)
                       endTime := ((endS : ℚ)) / (sr : ℚ)
                       duration := dur
                       index := idx }])
    else some acc

/-- Embedding of `AudioProcessor.splitAudioBuffer` (`audioUtils.ts` lines
349-394) at an explicit fuel bound: `segmentSamples` and `overlapSamples`
are `Math.floor` of duration times sample rate, `stepSamples` their
difference, and the loop starts at position 0, index 0. -/
def splitAudioBufferF (fuel : Nat) (L sr : ℕ) (opts : AudioSplitOptions) :
    Option (List AudioSegmentM) :=
  let segmentSamples : ℤ := ⌊opts.segmentDuration * (sr : ℚ)⌋
  let overlapSamples : ℤ := ⌊opts.overlap * (sr : ℚ)⌋
  splitGo L sr segmentSamples (segmentSamples - overlapSamples) fuel 0 0 []

/-- Embedding of `splitAudioBuffer` with fuel `L + 1`, which is enough for
every terminating run (whenever `stepSamples ≥ 1` the position strictly
increases each iteration, so at most `L` iterations occur). -/
def splitAudioBuffer (L sr : ℕ) (opts : AudioSplitOptions) :
    Option (List AudioSegmentM) :=
  splitAudioBufferF (L + 1) L sr opts

/-- State of the `Semaphore` of `apiUtils.ts` (lines 256-306), abstracted
to counts: `permits` is the `permits` field (a JavaScript number, hence
`ℤ`), `queued` the length of the `tasks` array, `running` the number of
`wrappedTask` bodies that have been started and not yet released. -/
structure SemState where
  permits : ℤ
  queued : Nat
  running : Nat
deriving DecidableEq, Repr

/-- Transition relation of the `Semaphore`. `acquireRun` and
`acquireQueue` embed `acquire` (lines 289-294): a caller with `permits >
0` decrements `permits` and starts its `wrappedTask` immediately,
otherwise it is pushed onto `tasks`. `completeNoQueue` and
`completeDequeue` embed `release` (lines 298-305), reached on both the
success and the failure path of a finished `wrappedTask`: `permits` is
incremented, and if `tasks` is nonempty the head is immediately popped and
started, re-decrementing `permits`. -/
inductive SemStep : SemState → SemState → Prop
  | acquireRun (s : SemState) (h : 0 < s.permits) :
      SemStep s ⟨s.permits - 1, s.queued, s.running + 1⟩
  | acquireQueue (s : SemState) (h : s.permits ≤ 0) :
      SemStep s ⟨s.permits, s.queued + 1, s.running⟩
  | completeNoQueue (s : SemState) (h : 0 < s.running) (hq : s.queued = 0) :
      SemStep s ⟨s.permits + 1, 0, s.running - 1⟩
  | completeDequeue (s : SemState) (h : 0 < s.running) (hq : 0 < s.queued) :
      SemStep s ⟨s.permits, s.queued - 1, s.running⟩

/-- Initial semaphore state of `new Semaphore(W)`: `permits = W`, no
queued and no running tasks. -/
def semInit (W : ℤ) : SemState := ⟨W, 0, 0⟩

/-- Reachability from the initial state of a width-`W` semaphore under any
interleaving of acquire and completion events. -/
def SemReachable (W : ℤ) (s : SemState) : Prop :=
  Relation.ReflTransGen SemStep (semInit W) s

/-- Event-loop accumulator for the synchronous burst phase of `acquire`
calls: the `lastRequestTime` field, the pending `setTimeout` timers as
(wake time, task id) in registration order, and the admissions recorded so
far as (task id, admission time). -/
structure BurstState where
  last : Nat
  timers : List (Nat × Nat)
  admissions : List (Nat × Nat)
deriving DecidableEq, Repr

/-- Rate-limit spacing constant of the `Semaphore` (`minInterval`,
`apiUtils.ts` line 260): 3000 ms. -/
def minInterval : Nat := 3000

/-- Stable insertion of a timer into a wake-time-ordered list: an
earlier-registered timer is placed before later-registered timers with the
same deadline, matching the JavaScript timer queue, where timers with
equal deadlines fire in registration order. -/
def insertTimer (t : Nat × Nat) : List (Nat × Nat) → List (Nat × Nat)
  | [] => [t]
  | x :: xs => if t.1 ≤ x.1 then t :: x :: xs else x :: insertTimer t xs

/-- Sorting a timer list by deadline (stable; see `insertTimer`). -/
def sortTimers : List (Nat × Nat) → List (Nat × Nat)
  | [] => []
  | x :: xs => insertTimer x (sortTimers xs)

/-- Synchronous prefix of `wrappedTask` (`apiUtils.ts` lines 268-280) for
one task in a burst of `acquire` calls issued in the same event-loop tick
at time `now` (as `segments.map(processSegment)` does when enough permits
are free). JavaScript runs each async function synchronously up to its
first `await`, so for each task in turn: it reads `Date.now()` and the
current `lastRequestTime`; if the elapsed time is below `minInterval` it
registers a timer for the remainder and suspends WITHOUT updating
`lastRequestTime`; otherwise it writes `lastRequestTime = now` and starts
the wrapped task in the same tick (its admission). -/
def burstSyncStep (now : Nat) (st : BurstState) (taskId : Nat) : BurstState :=
  let elapsed := now - st.last
  if elapsed < minInterval then
    { st with timers := st.timers ++ [(now + (minInterval - elapsed), taskId)] }
  else
    { st with last := now, admissions := st.admissions ++ [(taskId, now)] }

/-- Resumption of a suspended `wrappedTask` when its spacing timer fires
(`apiUtils.ts` lines 276-280): at its wake time it writes
`lastRequestTime = Date.now()` and starts the wrapped task — it does NOT
re-check the spacing against the value of `lastRequestTime` written by
tasks that woke before it. -/
def burstTimerStep (st : Nat × List (Nat × Nat)) (t : Nat × Nat) :
    Nat × List (Nat × Nat) :=
  (t.1, st.2 ++ [(t.2, t.1)])

/-- Admission times produced by the `Semaphore` for `k` tasks whose
`acquire` calls all happen in one event-loop tick at time `now`, with at
least `k` permits free and `lastRequestTime = last0` (with `last0 ≤ now`,
as `Date.now()` is non-decreasing and `lastRequestTime` starts at 0):
first the synchronous phase runs every acquire in call order, then the
registered spacing timers fire in deadline order. Returns the (task id,
admission time) list in admission order. -/
def burstAdmissions (k : Nat) (now last0 : Nat) : List (Nat × Nat) :=
  let s := (List.range k).foldl (burstSyncStep now) ⟨last0, [], []⟩
  ((sortTimers s.timers).foldl burstTimerStep (s.last, s.admissions)).2

/-- Processing stages of the `AudioProcessor` component
(`ProcessingState.stage`). -/
inductive Stage where
  | idle
  | splitting
  | transcribing
  | merging
  | completed
  | error
deriving DecidableEq, Repr

/-- Embedding of the `startTranscription` run of the `AudioProcessor`
component (unnamed source file, lines 85-188): splitting (whose outcome,
a segment list or a thrown error, is the `splitResult` argument), the
zero-segment check, transcription of all segments, merging, and delivery
of the merged result through `onTranscriptionComplete` with the stage set
to `completed`. The `abortRaised` argument is the state of the
`AbortController` signal that `stopTranscription` (lines 190-201) trips:
faithfully to the source, which never passes the signal to any fetch nor
reads `signal.aborted` anywhere, no step of the run consults it. Returns
the final stage of the run together with the delivered result, if any. -/
def startTranscriptionRun (splitResult : Except Unit (List SegInput))
    (oracle : Nat → Nat → FetchOutcome) (abortRaised : Bool) :
    Stage × Option TranscriptionResult :=
  match splitResult with
  | .error _ => (Stage.error, none)
  | .ok segments =>
    if segments.length = 0 then (Stage.error, none)
    else
      let results := transcribeMultipleSegmentsM segments oracle
      (Stage.completed, some (mergeTranscriptionResults results))

/-- Predicate on a fetch outcome: the attempt fails, is not a 401, and its
error message lacks the API-key-invalid phrase, so every retry guard in
`transcribeAudio` and in `processSegment` treats it as retryable. This is
the class of failures the retry-budget claim calls transient. -/
def RetryableOutcome : FetchOutcome → Prop
  | .ok _ => False
  | .httpErr status phrase => phrase = false ∧ status ≠ 401
  | .netErr phrase => phrase = false

/-- Shape of a run of the `splitAudioBuffer` loop starting at sample
position `pos`: each emitted segment starts at the current position, ends
at `min (pos + segmentSamples) L`, has duration end minus start of at
least 1 second, and the next segment starts `step` samples later. -/
inductive SegChainFrom (L sr : ℕ) (segS step : ℤ) : ℤ → List AudioSegmentM → Prop
  | nil (pos : ℤ) : SegChainFrom L sr segS step pos []
  | cons (pos : ℤ) (s : AudioSegmentM) (rest : List AudioSegmentM)
      (hstart : s.startTime = (pos : ℚ) / (sr : ℚ))
      (hend : s.endTime = ((min (pos + segS) (L : ℤ) : ℤ) : ℚ) / (sr : ℚ))
      (hdur : s.duration = s.endTime - s.startTime)
      (hmin : 1 ≤ s.duration)
      (hrest : SegChainFrom L sr segS step (pos + step) rest) :
      SegChainFrom L sr segS step pos (s :: rest)

/-- Exit condition of the `splitAudioBuffer` loop at position `pos`:
either the position has reached the end of the buffer, or the remaining
window at `pos` lasts less than 1 second (the `break` that drops a
sub-threshold trailing remainder). -/
def SegTerminal (L sr : ℕ) (segS : ℤ) (pos : ℤ) : Prop :=
  (L : ℤ) ≤ pos ∨ (((min (pos + segS) (L : ℤ) - pos : ℤ) : ℚ)) / (sr : ℚ) < 1

/-- Transcript fragment with segment index 0 and a one-word text, used as
concrete test data. -/
def fragIdx0 : ResultWithMeta :=
  { text := "alpha", segments := [], words := [⟨"alpha", 0, 1/2⟩],
    language := "ja", duration := 60, index := 0, startTime := 0, endTime := 60 }

/-- Transcript fragment with segment index 1 and a one-word text, used as
concrete test data. -/
def fragIdx1 : ResultWithMeta :=
  { text := "beta", segments := [], words := [⟨"beta", 0, 1/2⟩],
    language := "ja", duration := 60, index := 1, startTime := 59, endTime := 119 }

/-- Fragment of the end-to-end merge scenario: segment with absolute start
0 s, carrying one word span at local time [0, 0.5] and one sub-segment
span at local time [0, 0.5]. -/
def fragStart0 : ResultWithMeta :=
  { text := "hello", segments := [⟨0, 0, 0, 1/2, "hello"⟩],
    words := [⟨"hello", 0, 1/2⟩], language := "ja",
    duration := 60, index := 0, startTime := 0, endTime := 60 }

/-- Fragment of the end-to-end merge scenario: segment with absolute start
59 s, carrying one word span at local time [0, 0.5] and one sub-segment
span at local time [0, 0.5]. -/
def fragStart59 : ResultWithMeta :=
  { text := "world", segments := [⟨0, 0, 0, 1/2, "world"⟩],
    words := [⟨"world", 0, 1/2⟩], language := "ja",
    duration := 60, index := 1, startTime := 59, endTime := 119 }

/-- Projection of a merged sub-segment span to the attributes the merge
offsets (start, end, text), forgetting the renumbered `id` and the
pass-through `seek`. -/
def segSpan (s : TranscriptionSegment) : ℚ × ℚ × String :=
  (s.start, s.«end», s.text)

/-- Membership in an insertion by index is membership in the inserted
element or the original list. -/
theorem mem_insertByIndex {r x : ResultWithMeta} :
    ∀ {l : List ResultWithMeta}, x ∈ insertByIndex r l ↔ x = r ∨ x ∈ l
  | [] => by simp [insertByIndex]
  | y :: ys => by
    by_cases h : r.index ≤ y.index
    · simp [insertByIndex, h]
    · simp only [insertByIndex, if_neg h, List.mem_cons, mem_insertByIndex]
      tauto

/-- Inserting by index preserves sortedness by index. -/
theorem pairwise_insertByIndex {r : ResultWithMeta} :
    ∀ {l : List ResultWithMeta},
      l.Pairwise (fun a b => a.index ≤ b.index) →
      (insertByIndex r l).Pairwise (fun a b => a.index ≤ b.index)
  | [], _ => by simp [insertByIndex]
  | y :: ys, h => by
    rw [List.pairwise_cons] at h
    by_cases hr : r.index ≤ y.index
    · rw [insertByIndex, if_pos hr, List.pairwise_cons, List.pairwise_cons]
      refine ⟨?_, h.1, h.2⟩
      intro b hb
      rcases List.mem_cons.mp hb with rfl | hb
      · exact hr
      · exact le_trans hr (h.1 b hb)
    · rw [insertByIndex, if_neg hr, List.pairwise_cons]
      refine ⟨?_, pairwise_insertByIndex h.2⟩
      intro b hb
      rcases mem_insertByIndex.mp hb with rfl | hb
      · exact Nat.le_of_not_le hr
      · exact h.1 b hb

/-- Output of sorting by index is sorted ascending by index. -/
theorem pairwise_sortResultsByIndex :
    ∀ l : List ResultWithMeta,
      (sortResultsByIndex l).Pairwise (fun a b => a.index ≤ b.index)
  | [] => by simp [sortResultsByIndex]
  | x :: xs => pairwise_insertByIndex (pairwise_sortResultsByIndex xs)

/-- Sorting by index leaves an already index-sorted list unchanged. -/
theorem sortResultsByIndex_eq_of_pairwise :
    ∀ {l : List ResultWithMeta},
      l.Pairwise (fun a b => a.index ≤ b.index) → sortResultsByIndex l = l
  | [], _ => rfl
  | x :: xs, h => by
    rw [List.pairwise_cons] at h
    rw [sortResultsByIndex, sortResultsByIndex_eq_of_pairwise h.2]
    cases xs with
    | nil => rfl
    | cons y ys => exact if_pos (h.1 y (List.mem_cons_self y ys))

/-- C10: for every input segment list and every completion order of the
underlying network calls (every completion order is an instantiation of
the input order of the sequential model), `transcribeMultipleSegments`
returns its successful results sorted ascending by segment index, because
it sorts with the comparator `a.index - b.index` just before returning. -/
theorem C10_results_sorted_by_index (segments : List SegInput)
    (oracle : Nat → Nat → FetchOutcome) :
    (transcribeMultipleSegmentsM segments oracle).Pairwise
      (fun a b => a.index ≤ b.index) :=
  pairwise_sortResultsByIndex _

/-- C3 counterexample: merging two fragments given in reverse index order
differs from merging the same fragments pre-sorted by index, so the merge
operation does not sort internally. -/
theorem C3_merge_sort_counterexample :
    mergeTranscriptionResults [fragIdx1, fragIdx0] ≠
      mergeTranscriptionResults (sortResultsByIndex [fragIdx1, fragIdx0]) := by
  intro h
  have hw := congrArg TranscriptionResult.words h
  revert hw
  decide

/-- C3 amended: the merge operation processes fragments in the order it is
given and does not sort by segment index internally, so merging an
arbitrary input order and merging the pre-sorted fragments agree exactly
when the input is already sorted ascending by index (the order in which
`transcribeMultipleSegments` delivers it). -/
theorem C3_merge_order_amended (l : List ResultWithMeta)
    (h : l.Pairwise (fun a b => a.index ≤ b.index)) :
    mergeTranscriptionResults l = mergeTranscriptionResults (sortResultsByIndex l) := by
  rw [sortResultsByIndex_eq_of_pairwise h]

/-- Witness for the amended C3 theorem at a concrete index-sorted pair of
fragments. -/
theorem C3_merge_order_amended_witness :
    ([fragIdx0, fragIdx1] : List ResultWithMeta).Pairwise
        (fun a b => a.index ≤ b.index) ∧
      mergeTranscriptionResults [fragIdx0, fragIdx1] =
        mergeTranscriptionResults (sortResultsByIndex [fragIdx0, fragIdx1]) :=
  ⟨by decide, C3_merge_order_amended [fragIdx0, fragIdx1] (by decide)⟩

/-- Mapping the span projection over an offset-append of sub-segments
splits into the base projection and the offset local spans; the `id`
renumbering is invisible to the projection. -/
theorem offsetSegments_map_segSpan (off : ℚ) :
    ∀ (segs base : List TranscriptionSegment),
      (offsetSegments off base segs).map segSpan =
        base.map segSpan ++
          segs.map (fun sg => (sg.start + off, sg.«end» + off, sg.text))
  | [], base => by simp [offsetSegments]
  | sg :: segs, base => by
    have h := offsetSegments_map_segSpan off segs (base ++ [{ sg with id := base.length, start := sg.start + off, «end» := sg.«end» + off }])
    simp only [offsetSegments, List.foldl_cons] at h ⊢
    rw [h]
    simp [segSpan]

/-- Words component of the merge fold: the accumulated words followed by
every fragment's offset words, in input order. -/
theorem mergeFold_words :
    ∀ (l : List ResultWithMeta) (acc : List TranscriptionSegment × List TranscriptionWord × ℚ),
      (l.foldl mergeStep acc).2.1 =
        acc.2.1 ++ (l.map (fun r => offsetWords r.startTime r.words)).flatten
  | [], acc => by simp
  | r :: l, acc => by
    rw [List.foldl_cons, mergeFold_words l (mergeStep acc r)]
    simp [mergeStep, List.append_assoc]

/-- Segment-span component of the merge fold: the accumulated spans
followed by every fragment's offset local spans, in input order. -/
theorem mergeFold_segments :
    ∀ (l : List ResultWithMeta) (acc : List TranscriptionSegment × List TranscriptionWord × ℚ),
      (l.foldl mergeStep acc).1.map segSpan =
        acc.1.map segSpan ++
          (l.map (fun r => r.segments.map
            (fun sg => (sg.start + r.startTime, sg.«end» + r.startTime, sg.text)))).flatten
  | [], acc => by simp
  | r :: l, acc => by
    rw [List.foldl_cons, mergeFold_segments l (mergeStep acc r)]
    simp only [mergeStep, offsetSegments_map_segSpan, List.flatten, List.append_assoc]

/-- Duration component of the merge fold is the running maximum of the
fragments' end times. -/
theorem mergeFold_duration :
    ∀ (l : List ResultWithMeta) (acc : List TranscriptionSegment × List TranscriptionWord × ℚ),
      (l.foldl mergeStep acc).2.2 = l.foldl (fun d r => max d r.endTime) acc.2.2
  | [], _ => rfl
  | r :: l, acc => by
    rw [List.foldl_cons, mergeFold_duration l (mergeStep acc r), List.foldl_cons]
    rfl

/-- Seed of a running maximum is bounded by the result. -/
theorem le_foldl_max :
    ∀ (l : List ResultWithMeta) (d : ℚ), d ≤ l.foldl (fun d r => max d r.endTime) d
  | [], _ => le_refl _
  | r :: l, d => le_trans (le_max_left d r.endTime) (le_foldl_max l _)

/-- Every list element's end time is bounded by the running maximum. -/
theorem foldl_max_ub :
    ∀ (l : List ResultWithMeta) (d : ℚ) (r : ResultWithMeta), r ∈ l →
      r.endTime ≤ l.foldl (fun d r => max d r.endTime) d
  | x :: l, d, r, hr => by
    rcases List.mem_cons.mp hr with rfl | hr
    · exact le_trans (le_max_right d r.endTime) (le_foldl_max l _)
    · exact foldl_max_ub l _ r hr

/-- Running maximum is either its seed or one of the end times. -/
theorem foldl_max_cases :
    ∀ (l : List ResultWithMeta) (d : ℚ),
      l.foldl (fun d r => max d r.endTime) d = d ∨
        l.foldl (fun d r => max d r.endTime) d ∈ l.map (fun r => r.endTime)
  | [], d => Or.inl rfl
  | x :: l, d => by
    rcases foldl_max_cases l (max d x.endTime) with h | h
    · rcases max_choice d x.endTime with hm | hm
      · exact Or.inl (by rw [List.foldl_cons, h, hm])
      · exact Or.inr (by rw [List.foldl_cons, h, hm]; exact List.mem_cons_self _ _)
    · exact Or.inr (List.mem_cons_of_mem _ (by rw [List.foldl_cons]; exact h))

/-- C6: merging a nonempty fragment list in the order given, each merged
sub-segment span and word span has absolute start and end equal to its
local start and end plus the owning fragment's segment start time, and the
merged duration is the maximum segment end time across the fragments (it
bounds every fragment's end time and is attained by one of them), not
their sum. -/
theorem C6_merge_offsets (l : List ResultWithMeta) (hne : l ≠ [])
    (hnn : ∀ r ∈ l, 0 ≤ r.endTime) :
    (mergeTranscriptionResults l).words =
        (l.map (fun r => offsetWords r.startTime r.words)).flatten ∧
      (mergeTranscriptionResults l).segments.map segSpan =
        (l.map (fun r => r.segments.map
          (fun sg => (sg.start + r.startTime, sg.«end» + r.startTime, sg.text)))).flatten ∧
      (∀ r ∈ l, r.endTime ≤ (mergeTranscriptionResults l).duration) ∧
      (mergeTranscriptionResults l).duration ∈ l.map (fun r => r.endTime) := by
  match l with
  | [] => exact absurd rfl hne
  | r0 :: t =>
    have hwords : (mergeTranscriptionResults (r0 :: t)).words =
        ((r0 :: t).foldl mergeStep ([], [], 0)).2.1 := rfl
    have hsegs : (mergeTranscriptionResults (r0 :: t)).segments =
        ((r0 :: t).foldl mergeStep ([], [], 0)).1 := rfl
    have hdur : (mergeTranscriptionResults (r0 :: t)).duration =
        ((r0 :: t).foldl mergeStep ([], [], 0)).2.2 := rfl
    refine ⟨?_, ?_, ?_, ?_⟩
    · rw [hwords, mergeFold_words]; rfl
    · rw [hsegs, mergeFold_segments]; rfl
    · intro r hr
      rw [hdur, mergeFold_duration]
      exact foldl_max_ub _ _ r hr
    · rw [hdur, mergeFold_duration]
      rcases foldl_max_cases (r0 :: t) 0 with h | h
      · have h0 : r0.endTime ≤ 0 := by
          have := foldl_max_ub (r0 :: t) 0 r0 (List.mem_cons_self _ _)
          rw [h] at this
          exact this
        have h1 : r0.endTime = 0 :=
          le_antisymm h0 (hnn r0 (List.mem_cons_self _ _))
        rw [h, ← h1]
        exact List.mem_map_of_mem _ (List.mem_cons_self _ _)
      · exact h

/-- Witness for C6 at the end-to-end scenario of the specification: two
fragments with absolute starts 0 s and 59 s, each with one word span at
local time [0, 0.5]; the merged word spans sit at absolute times [0, 0.5]
and [59, 59.5], in that order. -/
theorem C6_merge_offsets_witness :
    ([fragStart0, fragStart59] : List ResultWithMeta) ≠ [] ∧
      (∀ r ∈ ([fragStart0, fragStart59] : List ResultWithMeta), 0 ≤ r.endTime) ∧
      ((mergeTranscriptionResults [fragStart0, fragStart59]).words =
          (([fragStart0, fragStart59] : List ResultWithMeta).map
            (fun r => offsetWords r.startTime r.words)).flatten ∧
        (mergeTranscriptionResults [fragStart0, fragStart59]).segments.map segSpan =
          (([fragStart0, fragStart59] : List ResultWithMeta).map
            (fun r => r.segments.map
              (fun sg => (sg.start + r.startTime, sg.«end» + r.startTime, sg.text)))).flatten ∧
        (∀ r ∈ ([fragStart0, fragStart59] : List ResultWithMeta),
          r.endTime ≤ (mergeTranscriptionResults [fragStart0, fragStart59]).duration) ∧
        (mergeTranscriptionResults [fragStart0, fragStart59]).duration ∈
          ([fragStart0, fragStart59] : List ResultWithMeta).map (fun r => r.endTime)) ∧
      (mergeTranscriptionResults [fragStart0, fragStart59]).words =
        [⟨"hello", 0, 1/2⟩, ⟨"world", 59, 119/2⟩] :=
  ⟨List.cons_ne_nil _ _, by decide,
    C6_merge_offsets [fragStart0, fragStart59] (List.cons_ne_nil _ _) (by decide),
    by norm_num [mergeTranscriptionResults, mergeStep, offsetWords, fragStart0, fragStart59]⟩

/-- Running the single-call retry wrapper against attempts that all fail
with a retryable non-auth error consumes one outbound call per remaining
retry plus the final failing call: `budget + 1` calls in total. -/
theorem transcribeAudioB_retryable (oracle : Nat → FetchOutcome)
    (h : ∀ n, RetryableOutcome (oracle n)) :
    ∀ b k, transcribeAudioB oracle b k = (.error ⟨false⟩, k + b + 1) := by
  intro b
  induction b with
  | zero =>
    intro k
    have hk' := h k
    rcases hk : oracle k with r | ⟨s, p⟩ | p <;> rw [hk] at hk'
    · exact hk'.elim
    · obtain ⟨hp, hs⟩ := hk'
      subst hp
      rw [transcribeAudioB.eq_def]
      simp only [hk]
      simp [hs]
    · have hp : p = false := hk'
      subst hp
      rw [transcribeAudioB.eq_def]
      simp only [hk]
  | succ b ih =>
    intro k
    have hk' := h k
    rcases hk : oracle k with r | ⟨s, p⟩ | p <;> rw [hk] at hk'
    · exact hk'.elim
    · obtain ⟨hp, hs⟩ := hk'
      subst hp
      rw [transcribeAudioB.eq_def]
      simp only [hk]
      by_cases h429 : s = 429
      · simp only [h429, reduceIte, ih, Prod.mk.injEq]
        exact ⟨trivial, by omega⟩
      · simp only [h429, hs, reduceIte, Bool.false_eq_true, if_false, ite_false, ih, Prod.mk.injEq]
        simp [h429, hs, ih]
        omega
    · have hp : p = false := hk'
      subst hp
      rw [transcribeAudioB.eq_def]
      simp only [hk]
      simp only [Bool.false_eq_true, reduceIte, ih, Prod.mk.injEq]
      exact ⟨trivial, by omega⟩

/-- Full two-wave statistics for a segment whose every attempt fails with
a retryable non-auth error: 4 calls in the first wave, 3 in the retry
wave, no success, errors recorded at retry counts 0 and 1, and the
final-failure filter does not flag the segment. -/
theorem segmentRun_retryable (oracle : Nat → FetchOutcome) (seg : SegInput)
    (h : ∀ n, RetryableOutcome (oracle n)) :
    segmentRun oracle seg = ⟨7, false, [(0, false), (1, false)], false⟩ := by
  have h3 := transcribeAudioB_retryable oracle h 3 0
  have h2 := transcribeAudioB_retryable oracle h 2 4
  simp only [segmentRun, transcribeAudio]
  norm_num [h3, h2, finalErrorFlag]

/-- C2 counterexample: for a segment whose every attempt fails with a
transient network error, the total number of outbound call attempts is 7,
not the 3 the claim states. -/
theorem C2_three_attempts_counterexample :
    (segmentRun (fun _ => FetchOutcome.netErr false) ⟨0, 0, 60⟩).totalCalls = 7 ∧
      (segmentRun (fun _ => FetchOutcome.netErr false) ⟨0, 0, 60⟩).totalCalls ≠ 3 := by
  rw [segmentRun_retryable (fun _ => FetchOutcome.netErr false) ⟨0, 0, 60⟩ (fun _ => rfl)]
  exact ⟨rfl, by decide⟩

/-- C2 amended: a segment whose every transcription attempt fails with a
transient (retryable, non-auth) error receives exactly 7 outbound call
attempts: 4 in the initial wave (the single-call backoff itself retries
until `retryCount` reaches `maxRetries = 3`) and 3 in the orchestrator
retry wave, which restarts the wrapper at `retryCount = 1`. Afterwards
the segment has produced no result; moreover the final-failure statistic
(filter `retryCount >= 2`) fails to flag it, because its recorded errors
carry retry counts 0 and 1 only. -/
theorem C2_retry_budget_amended (oracle : Nat → FetchOutcome) (seg : SegInput)
    (h : ∀ n, RetryableOutcome (oracle n)) :
    (segmentRun oracle seg).totalCalls = 7 ∧
      (segmentRun oracle seg).succeeded = false ∧
      (segmentRun oracle seg).finalFlagged = false := by
  rw [segmentRun_retryable oracle seg h]
  exact ⟨rfl, rfl, rfl⟩

/-- Witness for the amended C2 theorem at the always-transient oracle. -/
theorem C2_retry_budget_amended_witness :
    (∀ n : Nat, RetryableOutcome ((fun _ => FetchOutcome.netErr false) n)) ∧
      ((segmentRun (fun _ => FetchOutcome.netErr false) ⟨0, 0, 60⟩).totalCalls = 7 ∧
        (segmentRun (fun _ => FetchOutcome.netErr false) ⟨0, 0, 60⟩).succeeded = false ∧
        (segmentRun (fun _ => FetchOutcome.netErr false) ⟨0, 0, 60⟩).finalFlagged = false) :=
  ⟨fun _ => rfl, C2_retry_budget_amended _ _ (fun _ => rfl)⟩

/-- C7: a segment whose first transcription attempt fails with an auth
error (HTTP 401) makes exactly one outbound call: the single-call wrapper
throws without retrying (the thrown message contains the API-key-invalid
phrase), the orchestrator does not requeue it for the retry wave, the
failure is recorded once at retry count 0 with the auth marker, and the
final-failure filter flags it. -/
theorem C7_auth_single_attempt (oracle : Nat → FetchOutcome) (seg : SegInput)
    (p : Bool) (h : oracle 0 = FetchOutcome.httpErr 401 p) :
    (segmentRun oracle seg).totalCalls = 1 ∧
      (segmentRun oracle seg).succeeded = false ∧
      (segmentRun oracle seg).recorded = [(0, true)] ∧
      (segmentRun oracle seg).finalFlagged = true := by
  have h1 : transcribeAudioB oracle 3 0 = (.error ⟨true⟩, 1) := by
    rw [transcribeAudioB.eq_def]
    simp only [h]
    simp
  simp [segmentRun, transcribeAudio, h1, finalErrorFlag]

/-- Witness for C7 at the constant-401 oracle. -/
theorem C7_auth_single_attempt_witness :
    ((fun _ => FetchOutcome.httpErr 401 true) 0 = FetchOutcome.httpErr 401 true) ∧
      ((segmentRun (fun _ => FetchOutcome.httpErr 401 true) ⟨0, 0, 60⟩).totalCalls = 1 ∧
        (segmentRun (fun _ => FetchOutcome.httpErr 401 true) ⟨0, 0, 60⟩).succeeded = false ∧
        (segmentRun (fun _ => FetchOutcome.httpErr 401 true) ⟨0, 0, 60⟩).recorded = [(0, true)] ∧
        (segmentRun (fun _ => FetchOutcome.httpErr 401 true) ⟨0, 0, 60⟩).finalFlagged = true) :=
  ⟨rfl, C7_auth_single_attempt _ ⟨0, 0, 60⟩ true rfl⟩

/-- Inductive invariant of the semaphore: the permit count plus the number
of started-and-unreleased tasks equals the width, and the permit count
never goes negative. -/
theorem semStep_inv (W : ℤ) {s t : SemState}
    (hinv : s.permits + s.running = W ∧ 0 ≤ s.permits) (hstep : SemStep s t) :
    t.permits + t.running = W ∧ 0 ≤ t.permits := by
  obtain ⟨h1, h2⟩ := hinv
  cases hstep <;> dsimp only <;> constructor <;> omega

/-- C8: for every configured concurrency width W and every sequence of
acquire and completion events (completions cover both the success and the
failure path, each of which releases the slot), at no reachable state are
more than W wrapped tasks started and unreleased: acquire starts a task
immediately only when a permit is free, otherwise queues it until a
release pops it. -/
theorem C8_width_bound (W : ℤ) (hW : 0 ≤ W) (s : SemState)
    (h : SemReachable W s) : (s.running : ℤ) ≤ W := by
  have hinv : s.permits + s.running = W ∧ 0 ≤ s.permits := by
    induction h with
    | refl => exact ⟨by simp [semInit], by simpa [semInit] using hW⟩
    | tail hr hstep ih => exact semStep_inv W ih hstep
  omega

/-- Witness for C8 along a concrete two-event history of a width-1
semaphore: one admitted task, one queued task. -/
theorem C8_width_bound_witness :
    (0 : ℤ) ≤ 1 ∧ SemReachable 1 ⟨0, 1, 1⟩ ∧
      (((⟨0, 1, 1⟩ : SemState).running : ℤ)) ≤ 1 := by
  have reach : SemReachable 1 ⟨0, 1, 1⟩ :=
    Relation.ReflTransGen.tail
      (Relation.ReflTransGen.tail Relation.ReflTransGen.refl
        (SemStep.acquireRun (semInit 1) (by decide)))
      (SemStep.acquireQueue ⟨0, 0, 1⟩ (by decide))
  exact ⟨by decide, reach, C8_width_bound 1 (by decide) _ reach⟩

/-- C1: three tasks whose `acquire` calls land in the same event-loop tick
(fresh semaphore, `lastRequestTime = 0`, tick at 100000 ms, at least
three permits free) are admitted at times 100000, 103000 and 103000:
tasks 1 and 2 both read the same stale `lastRequestTime`, sleep the same
3000 ms, and on waking admit back to back without re-checking, 0 ms
apart — below the required 3000 ms global minimum spacing. -/
theorem C1_spacing_race :
    burstAdmissions 3 100000 0 = [(0, 100000), (1, 103000), (2, 103000)] ∧
      103000 - 103000 < minInterval := by
  decide

/-- C9: the cancel signal raised by `stopTranscription` is dead to the
pipeline: `startTranscription` neither passes the abort signal to any
fetch nor reads it between stages, so a run with the signal raised is
identical to a run without it, keeps dispatching every segment, ends in
the `completed` stage and still delivers the merged transcript through
`onTranscriptionComplete`. -/
theorem C9_cancel_ignored :
    (∀ (split : Except Unit (List SegInput)) (oracle : Nat → Nat → FetchOutcome),
        startTranscriptionRun split oracle true = startTranscriptionRun split oracle false) ∧
      (startTranscriptionRun (.ok [⟨0, 0, 60⟩])
          (fun _ _ => .ok ⟨"t", [], [], "ja", 60⟩) true).1 = Stage.completed ∧
      (startTranscriptionRun (.ok [⟨0, 0, 60⟩])
          (fun _ _ => .ok ⟨"t", [], [], "ja", 60⟩) true).2.isSome = true :=
  ⟨fun _ _ => rfl, rfl, rfl⟩

/-- Unfolding of the segmentation loop at fuel 0: a loop that still has
iterations to run is out of fuel. -/
theorem splitGo_zero (L sr : ℕ) (segS step : ℤ) (pos : ℤ) (idx : Nat)
    (acc : List AudioSegmentM) :
    splitGo L sr segS step 0 pos idx acc =
      if pos < (L : ℤ) then none else some acc := rfl

/-- Unfolding of one iteration of the segmentation loop. -/
theorem splitGo_succ (L sr : ℕ) (segS step : ℤ) (fuel : Nat) (pos : ℤ)
    (idx : Nat) (acc : List AudioSegmentM) :
    splitGo L sr segS step (fuel + 1) pos idx acc =
      if pos < (L : ℤ) then
        if ((min (pos + segS) (L : ℤ) - pos : ℤ) : ℚ) / (sr : ℚ) < 1 then some acc
        else
          splitGo L sr segS step fuel (pos + step) (idx + 1)
            (acc ++ [⟨((pos : ℚ)) / (sr : ℚ),
              (((min (pos + segS) (L : ℤ) : ℤ) : ℚ)) / (sr : ℚ),
              ((min (pos + segS) (L : ℤ) - pos : ℤ) : ℚ) / (sr : ℚ), idx⟩])
      else some acc := rfl

/-- Characterization of integer floors of rationals by bracketing. -/
theorem floor_q (a : ℤ) (r : ℚ) (h1 : (a : ℚ) ≤ r) (h2 : r < a + 1) :
    ⌊r⌋ = a := by
  rw [Int.floor_eq_iff]
  exact ⟨h1, by push_cast; exact h2⟩

/-- Non-advancing run of the segmentation loop: with step 0 and a first
window of at least 1 second, the loop re-emits the same window forever
and never returns, whatever the fuel. -/
theorem splitGo_stuck :
    ∀ (fuel : Nat) (idx : Nat) (acc : List AudioSegmentM),
      splitGo 100 10 20 0 fuel 0 idx acc = none := by
  intro fuel
  induction fuel with
  | zero =>
    intro idx acc
    rw [splitGo_zero, if_pos (by norm_num)]
  | succ fuel ih =>
    intro idx acc
    rw [splitGo_succ, if_pos (by norm_num),
      if_neg (by norm_num [min_def] : ¬((min ((0 : ℤ) + 20) ((100 : ℕ) : ℤ) - 0 : ℤ) : ℚ) / ((10 : ℕ) : ℚ) < 1)]
    rw [show ((0 : ℤ) + 0) = 0 from by norm_num]
    exact ih _ _

/-- C4: the source has no guard against `overlap >= segmentDuration`.
With `segmentDuration = 2`, `overlap = 2`, sample rate 10 and a 100-sample
(10-second) waveform, `stepSamples = 0`, so the loop never advances and
never terminates (the run is `none` at every fuel bound); no configuration
error, nor any other value, is ever produced. The zero-length half of the
claim does hold: an empty waveform yields the empty segment sequence. -/
theorem C4_nonadvancing_divergence :
    (∀ fuel, splitAudioBufferF fuel 100 10 ⟨2, 2⟩ = none) ∧
      splitAudioBuffer 0 10 ⟨2, 2⟩ = some [] := by
  constructor
  · intro fuel
    have hseg : (⌊(2 : ℚ) * ((10 : ℕ) : ℚ)⌋ : ℤ) = 20 :=
      floor_q 20 _ (by norm_num) (by norm_num)
    show splitGo 100 10 (⌊(2 : ℚ) * ((10 : ℕ) : ℚ)⌋)
        (⌊(2 : ℚ) * ((10 : ℕ) : ℚ)⌋ - ⌊(2 : ℚ) * ((10 : ℕ) : ℚ)⌋) fuel 0 0 [] = none
    rw [hseg, show ((20 : ℤ) - 20) = 0 from by norm_num]
    exact splitGo_stuck fuel 0 []
  · rfl

/-- C5 counterexample: with sample rate 10, `segmentDuration = 2` and
`overlap = 0.55`, a 40-sample (4-second) waveform is split into segments
with start times 0, 1.5 and 3: the start-time increment is
`(⌊2·10⌋ - ⌊0.55·10⌋)/10 = 1.5` seconds, not the claimed
`segmentDuration - overlap = 1.45` seconds. (The run also exhibits the
kept trailing remainder of exactly 1 second.) -/
theorem C5_step_counterexample :
    splitAudioBuffer 40 10 ⟨2, 55/100⟩ =
        some [⟨0, 2, 2, 0⟩, ⟨3/2, 7/2, 2, 1⟩, ⟨3, 4, 1, 2⟩] ∧
      ¬((3/2 : ℚ) - 0 = 2 - 55/100) := by
  constructor
  · have hseg : (⌊(2 : ℚ) * ((10 : ℕ) : ℚ)⌋ : ℤ) = 20 :=
      floor_q 20 _ (by norm_num) (by norm_num)
    have hov : (⌊(55/100 : ℚ) * ((10 : ℕ) : ℚ)⌋ : ℤ) = 5 :=
      floor_q 5 _ (by norm_num) (by norm_num)
    show splitGo 40 10 (⌊(2 : ℚ) * ((10 : ℕ) : ℚ)⌋)
        (⌊(2 : ℚ) * ((10 : ℕ) : ℚ)⌋ - ⌊(55/100 : ℚ) * ((10 : ℕ) : ℚ)⌋)
        (40 + 1) 0 0 [] = _
    rw [hseg, hov]
    show splitGo 40 10 20 15 (40 + 1) 0 0 [] = _
    rw [splitGo_succ]
    norm_num [min_def]
    nth_rewrite 2 [show (40 : ℕ) = 39 + 1 from rfl]
    rw [splitGo_succ]
    norm_num [min_def]
    rw [show (39 : ℕ) = 38 + 1 from rfl, splitGo_succ]
    norm_num [min_def]
    rw [show (38 : ℕ) = 37 + 1 from rfl, splitGo_succ]
    norm_num
  · norm_num

/-- Start times along a segmentation chain increase by exactly
`step / sampleRate` seconds between consecutive segments. -/
theorem chain_steps (L sr : ℕ) (segS step : ℤ) :
    ∀ (pos : ℤ) (segs : List AudioSegmentM),
      SegChainFrom L sr segS step pos segs →
      segs.Chain' (fun a b => b.startTime - a.startTime = (step : ℚ) / (sr : ℚ)) := by
  intro pos segs h
  induction h with
  | nil => simp
  | cons pos s rest hstart hend hdur hmin hrest ih =>
    cases hrest with
    | nil => simp
    | cons _ b rest2 hstart2 hend2 hdur2 hmin2 hrest2 =>
      refine List.chain'_cons.mpr ⟨?_, ih⟩
      rw [hstart2, hstart, div_sub_div_same]
      push_cast
      ring_nf

/-- Every segment of a segmentation chain either has the full
`segmentSamples / sampleRate` duration or ends exactly at the end of the
waveform. -/
theorem chain_duration_shape (L sr : ℕ) (segS step : ℤ) :
    ∀ (pos : ℤ) (segs : List AudioSegmentM),
      SegChainFrom L sr segS step pos segs →
      ∀ s ∈ segs, s.duration = (segS : ℚ) / (sr : ℚ) ∨
        s.endTime = ((L : ℕ) : ℚ) / (sr : ℚ) := by
  intro pos segs h
  induction h with
  | nil => simp
  | cons pos s rest hstart hend hdur hmin hrest ih =>
    intro s' hs'
    rcases List.mem_cons.mp hs' with rfl | hs'
    · rcases le_or_lt (pos + segS) ((L : ℕ) : ℤ) with hle | hlt
      · left
        rw [hdur, hend, hstart, min_eq_left hle, div_sub_div_same]
        push_cast
        ring_nf
      · right
        rw [hend, min_eq_right (le_of_lt hlt)]
        push_cast
        ring_nf
    · exact ih s' hs'

/-- Every segment of a segmentation chain lasts at least 1 second. -/
theorem chain_min_duration (L sr : ℕ) (segS step : ℤ) :
    ∀ (pos : ℤ) (segs : List AudioSegmentM),
      SegChainFrom L sr segS step pos segs → ∀ s ∈ segs, 1 ≤ s.duration := by
  intro pos segs h
  induction h with
  | nil => simp
  | cons pos s rest hstart hend hdur hmin hrest ih =>
    intro s' hs'
    rcases List.mem_cons.mp hs' with rfl | hs'
    · exact hmin
    · exact ih s' hs'

/-- Main run lemma of the segmentation loop: with a positive step and
enough fuel, the loop terminates, appends a chain of window segments to
the accumulator, and stops only at the end of the buffer or at a
sub-threshold remainder. -/
theorem splitGo_chain (L sr : ℕ) (segS step : ℤ) (hstep : 0 < step) :
    ∀ (fuel : Nat) (pos : ℤ) (idx : Nat) (acc : List AudioSegmentM),
      (L : ℤ) - pos < (fuel : ℤ) →
      ∃ tail, splitGo L sr segS step fuel pos idx acc = some (acc ++ tail) ∧
        SegChainFrom L sr segS step pos tail ∧
        SegTerminal L sr segS (pos + step * (tail.length : ℤ)) := by
  intro fuel
  induction fuel with
  | zero =>
    intro pos idx acc hf
    refine ⟨[], ?_, SegChainFrom.nil pos, ?_⟩
    · rw [splitGo_zero, if_neg (by push_cast at hf; omega)]
      simp
    · refine Or.inl ?_
      push_cast at hf ⊢
      simp only [List.length_nil]
      omega
  | succ fuel ih =>
    intro pos idx acc hf
    by_cases hpos : pos < (L : ℤ)
    · by_cases hdur : ((min (pos + segS) ((L : ℕ) : ℤ) - pos : ℤ) : ℚ) / ((sr : ℕ) : ℚ) < 1
      · refine ⟨[], ?_, SegChainFrom.nil pos, ?_⟩
        · rw [splitGo_succ, if_pos hpos, if_pos hdur]
          simp
        · rw [show pos + step * ((([] : List AudioSegmentM).length : ℕ) : ℤ) = pos from by simp]
          exact Or.inr hdur
      · obtain ⟨tail, heq, hchain, hterm⟩ :=
          ih (pos + step) (idx + 1)
            (acc ++ [⟨((pos : ℚ)) / (sr : ℚ),
              (((min (pos + segS) (L : ℤ) : ℤ) : ℚ)) / (sr : ℚ),
              ((min (pos + segS) (L : ℤ) - pos : ℤ) : ℚ) / (sr : ℚ), idx⟩])
            (by push_cast at hf ⊢; omega)
        refine ⟨⟨((pos : ℚ)) / (sr : ℚ),
            (((min (pos + segS) (L : ℤ) : ℤ) : ℚ)) / (sr : ℚ),
            ((min (pos + segS) (L : ℤ) - pos : ℤ) : ℚ) / (sr : ℚ), idx⟩ :: tail,
          ?_, ?_, ?_⟩
        · rw [splitGo_succ, if_pos hpos, if_neg hdur, heq]
          simp
        · refine SegChainFrom.cons pos _ tail rfl rfl ?_ ?_ hchain
          · show ((min (pos + segS) (L : ℤ) - pos : ℤ) : ℚ) / (sr : ℚ) =
              (((min (pos + segS) (L : ℤ) : ℤ) : ℚ)) / (sr : ℚ) - ((pos : ℚ)) / (sr : ℚ)
            rw [div_sub_div_same]
            push_cast
            ring_nf
          · exact not_lt.mp hdur
        · rw [show pos + step * (((_ :: tail : List AudioSegmentM)).length : ℤ) =
              (pos + step) + step * ((tail.length : ℕ) : ℤ) from by push_cast [List.length_cons]; ring]
          exact hterm
    · refine ⟨[], ?_, SegChainFrom.nil pos, ?_⟩
      · rw [splitGo_succ, if_neg hpos]
        simp
      · refine Or.inl ?_
        simp only [List.length_nil]
        push_cast
        omega

/-- C5 amended: for every waveform and options whose sample-quantized step
`stepSamples = ⌊segmentDuration·sr⌋ - ⌊overlap·sr⌋` is positive, the
segmenter terminates and produces segments whose start times increase by
exactly `stepSamples / sr` seconds (which equals `segmentDuration -
overlap` exactly when both products are whole numbers of samples, and
differs otherwise); each segment's duration is either the full
`⌊segmentDuration·sr⌋ / sr` or it runs to the exact end of the waveform;
every emitted segment lasts at least 1 second (a remainder of exactly
1.0 s is kept, as the source tests strictly against `< 1`); and the loop
stops only once the position passes the end or the remaining window is
strictly below 1 second, so no remainder of at least 1 second is
dropped. -/
theorem C5_segmentation_amended (L sr : ℕ) (opts : AudioSplitOptions)
    (hstep : 0 < ⌊opts.segmentDuration * ((sr : ℕ) : ℚ)⌋ - ⌊opts.overlap * ((sr : ℕ) : ℚ)⌋) :
    ∃ segs, splitAudioBuffer L sr opts = some segs ∧
      segs.Chain' (fun a b => b.startTime - a.startTime =
        ((⌊opts.segmentDuration * ((sr : ℕ) : ℚ)⌋ - ⌊opts.overlap * ((sr : ℕ) : ℚ)⌋ : ℤ) : ℚ) / (sr : ℚ)) ∧
      (∀ s ∈ segs, s.duration = ((⌊opts.segmentDuration * ((sr : ℕ) : ℚ)⌋ : ℤ) : ℚ) / (sr : ℚ) ∨
        s.endTime = ((L : ℕ) : ℚ) / (sr : ℚ)) ∧
      (∀ s ∈ segs, 1 ≤ s.duration) ∧
      SegTerminal L sr (⌊opts.segmentDuration * ((sr : ℕ) : ℚ)⌋)
        ((⌊opts.segmentDuration * ((sr : ℕ) : ℚ)⌋ - ⌊opts.overlap * ((sr : ℕ) : ℚ)⌋) *
          (segs.length : ℤ)) := by
  obtain ⟨tail, heq, hchain, hterm⟩ :=
    splitGo_chain L sr (⌊opts.segmentDuration * ((sr : ℕ) : ℚ)⌋)
      (⌊opts.segmentDuration * ((sr : ℕ) : ℚ)⌋ - ⌊opts.overlap * ((sr : ℕ) : ℚ)⌋) hstep
      (L + 1) 0 0 [] (by push_cast; omega)
  refine ⟨tail, by simpa using heq, chain_steps _ _ _ _ _ _ hchain,
    chain_duration_shape _ _ _ _ _ _ hchain, chain_min_duration _ _ _ _ _ _ hchain, ?_⟩
  rw [zero_add] at hterm
  exact hterm

/-- Witness for the amended C5 theorem at the end-to-end scenario of the
specification: a 130-second waveform at 10 Hz with `segmentDuration = 60`
and `overlap = 1` (start times 0, 59 and 118 seconds, trailing remainder
of 12 seconds kept). -/
theorem C5_segmentation_amended_witness :
    ((0 : ℤ) < ⌊(60 : ℚ) * ((10 : ℕ) : ℚ)⌋ - ⌊(1 : ℚ) * ((10 : ℕ) : ℚ)⌋) ∧
      (∃ segs, splitAudioBuffer 1300 10 ⟨60, 1⟩ = some segs ∧
        segs.Chain' (fun a b => b.startTime - a.startTime =
          ((⌊(60 : ℚ) * ((10 : ℕ) : ℚ)⌋ - ⌊(1 : ℚ) * ((10 : ℕ) : ℚ)⌋ : ℤ) : ℚ) / ((10 : ℕ) : ℚ)) ∧
        (∀ s ∈ segs, s.duration = ((⌊(60 : ℚ) * ((10 : ℕ) : ℚ)⌋ : ℤ) : ℚ) / ((10 : ℕ) : ℚ) ∨
          s.endTime = ((1300 : ℕ) : ℚ) / ((10 : ℕ) : ℚ)) ∧
        (∀ s ∈ segs, 1 ≤ s.duration) ∧
        SegTerminal 1300 10 (⌊(60 : ℚ) * ((10 : ℕ) : ℚ)⌋)
          ((⌊(60 : ℚ) * ((10 : ℕ) : ℚ)⌋ - ⌊(1 : ℚ) * ((10 : ℕ) : ℚ)⌋) * ((segs.length : ℕ) : ℤ))) := by
  have h : (0 : ℤ) < ⌊(60 : ℚ) * ((10 : ℕ) : ℚ)⌋ - ⌊(1 : ℚ) * ((10 : ℕ) : ℚ)⌋ := by
    rw [floor_q 600 ((60 : ℚ) * ((10 : ℕ) : ℚ)) (by norm_num) (by norm_num),
      floor_q 10 ((1 : ℚ) * ((10 : ℕ) : ℚ)) (by norm_num) (by norm_num)]
    norm_num
  exact ⟨h, C5_segmentation_amended 1300 10 ⟨60, 1⟩ h⟩
